import Mathlib

/-!
# Verification of the `grains` geometry and utility modules

Shallow embedding of the functions in `grains/geometry.py` and
`grains/utils.py` (repository SOFTX-D-20-00095), together with proofs of the
specification's claims about them.  Python floats are modelled by `ℚ` (the
computations at issue are exact sign and equality facts on the inputs the
spec quantifies over), numpy integer arrays by `List Int` / `List (List Nat)`,
and Python dicts by association lists.
-/

namespace Grains

/-! ## `geometry._polygon_area`

Python source:
`1/2*(sum(i*j for i, j in zip(x, y[1:]+y[:1])) - sum(i*j for i, j in zip(x[1:]+x[:1], y)))`.
`l[1:] + l[:1]` is the one-step left rotation of the list, and `zip`
truncates to the shorter input, exactly as `List.zipWith` does. -/

/-- `l[1:] + l[:1]`: one-step left rotation of a Python list. -/
def rotLeft (l : List ℚ) : List ℚ := l.drop 1 ++ l.take 1

/-- `sum(i*j for i, j in zip(x, y))`. -/
def dotSum (x y : List ℚ) : ℚ := (List.zipWith (fun i j => i * j) x y).sum

/-- `geometry._polygon_area(x, y)`: the shoelace signed area of the polygon
with consecutive vertex coordinates `x`, `y`. -/
def _polygon_area (x y : List ℚ) : ℚ :=
  1/2 * (dotSum x (rotLeft y) - dotSum (rotLeft x) y)

/-! ## `TriMesh.change_vertex_numbering` and friends -/

/-- The `orientation` argument: the Python strings `'ccw'` and `'cw'`. -/
inductive Orientation where
  | ccw : Orientation
  | cw : Orientation
deriving DecidableEq, Repr

/-- The reversal test on lines 209–210 of `geometry.py`:
`(signed_area < 0 and orientation == 'ccw') or (signed_area > 0 and orientation == 'cw')`. -/
def needsReversal (signedArea : ℚ) (orientation : Orientation) : Bool :=
  (decide (signedArea < 0) && decide (orientation = Orientation.ccw)) ||
  (decide (0 < signedArea) && decide (orientation = Orientation.cw))

/-- `self.vertices[cell_vertices]` followed by `_polygon_area` on the two
coordinate columns: the shoelace signed area of one cell.  Vertex lookup is
total via `getD` (numpy would raise on an out-of-range index; the claims
quantify over meshes, and the same lookup convention is used uniformly). -/
def cellSignedArea (vertices : List (ℚ × ℚ)) (cell : List Nat) : ℚ :=
  let coordinates := cell.map (fun v => vertices.getD v (0, 0))
  _polygon_area (coordinates.map Prod.fst) (coordinates.map Prod.snd)

/-- The body of the `for` loop of `change_vertex_numbering`: reverse the
cell's vertex list when the reversal test fires. -/
def reorderCell (vertices : List (ℚ × ℚ)) (orientation : Orientation)
    (cell : List Nat) : List Nat :=
  if needsReversal (cellSignedArea vertices cell) orientation then cell.reverse
  else cell

/-- A numpy integer array that is either 1D (a single cell given as a
vector) or 2D (one row per cell), as `change_vertex_numbering`
distinguishes them via `np.ndim`. -/
inductive NDCells where
  | vec : List Nat → NDCells
  | mat : List (List Nat) → NDCells
deriving DecidableEq, Repr

/-- `TriMesh` (only the two data fields the verified methods touch). -/
structure TriMesh where
  vertices : List (ℚ × ℚ)
  cells : NDCells
deriving DecidableEq, Repr

/-- Column count of a 2D array built from nested lists: `np.size(a, 1)` is
the length of the (uniform) rows, read off the first row. -/
def colCount (m : List (List Nat)) : Nat := (m.head?.getD []).length

/-- `TriMesh.change_vertex_numbering(orientation, inplace)` as a state
transformer: returns the mesh state after the call together with either the
reordered cell array or the exception message.  The 1D→2D reshape on lines
201–202 mutates `self.cells` before the vertex-count guard runs, so the
error case can still leave a modified state. -/
def change_vertex_numbering (mesh : TriMesh) (orientation : Orientation)
    (inplace : Bool) : TriMesh × Except String (List (List Nat)) :=
  let mesh1 : TriMesh :=
    match mesh.cells with
    | NDCells.vec v => { mesh with cells := NDCells.mat [v] }
    | NDCells.mat _ => mesh
  let rows : List (List Nat) :=
    match mesh1.cells with
    | NDCells.vec v => [v]
    | NDCells.mat m => m
  if colCount rows < 3 then
    (mesh1, Except.error "Cells must have at least 3 vertices.")
  else
    let reordered := rows.map (reorderCell mesh1.vertices orientation)
    (if inplace then { mesh1 with cells := NDCells.mat reordered } else mesh1,
     Except.ok reordered)

/-- `TriMesh.scale(factor, inplace)` as a state transformer: the scaled
vertex array is returned, and replaces `self.vertices` only when `inplace`. -/
def scale (mesh : TriMesh) (factor : ℚ) (inplace : Bool) :
    TriMesh × List (ℚ × ℚ) :=
  let scaled_vertices := mesh.vertices.map (fun p => (factor * p.1, factor * p.2))
  (if inplace then { mesh with vertices := scaled_vertices } else mesh,
   scaled_vertices)

/-- `TriMesh.rotate(angle, point, inplace)` as a state transformer.  The
rotation-matrix entries `cos angle` and `sin angle` are passed as the exact
parameters `c` and `s` (the frame claims do not depend on their values). -/
def rotate (mesh : TriMesh) (c s : ℚ) (point : ℚ × ℚ) (inplace : Bool) :
    TriMesh × List (ℚ × ℚ) :=
  let rotated_vertices := mesh.vertices.map (fun p =>
    (c * (p.1 - point.1) - s * (p.2 - point.2) + point.1,
     s * (p.1 - point.1) + c * (p.2 - point.2) + point.2))
  (if inplace then { mesh with vertices := rotated_vertices } else mesh,
   rotated_vertices)

/-! ## `utils.neighborhood`

Embedding of the `norm=np.inf`, `method='ball'` case with an explicit
per-dimension `bounds` list (which is what claim C3 quantifies over; the
`bounds=None` default merely substitutes an unbounded box).  A point of
`ℤ^n` is a `List Int` of length `n`. -/

/-- One row of the bounding box: `np.linspace(c - radius, c + radius,
2*radius + 1, dtype=int)`, i.e. the integers `c - radius, …, c + radius`. -/
def boundingRow (c : Int) (radius : Nat) : List Int :=
  (List.range (2 * radius + 1)).map fun k : Nat => c - (radius : Int) + (k : Int)

/-- `[np.linspace(center[i] - radius, center[i] + radius, ...) for i in range(dim)]`. -/
def boundingBox (center : List Int) (radius : Nat) : List (List Int) :=
  center.map fun c => boundingRow c radius

/-- The set of candidate points of the box, as assembled by
`np.meshgrid` + `flatten` + `column_stack`: the Cartesian product of the
per-dimension coordinate rows (as a list of points; the claims are about
which points occur). -/
def gridPoints : List (List Int) → List (List Int)
  | [] => [[]]
  | r :: rest => r.flatMap fun v => (gridPoints rest).map fun p => v :: p

/-- `np.linalg.norm(x - center, np.inf) <= radius` on integer points: every
coordinate of `p` is within `radius` of the matching coordinate of
`center` (the maximum norm). -/
def chebyshevLe (p center : List Int) (radius : Nat) : Bool :=
  (List.zip p center).all fun q => decide ((q.1 - q.2).natAbs ≤ radius)

/-- `(candidates[:, i] >= bounds[i][0]) & (candidates[:, i] <= bounds[i][1])`
reduced over all dimensions with `np.logical_and`. -/
def inBounds (p : List Int) (bounds : List (Int × Int)) : Bool :=
  (List.zip p bounds).all fun q => decide (q.2.1 ≤ q.1) && decide (q.1 ≤ q.2.2)

/-- `utils.neighborhood(center, radius, np.inf, 'ball', bounds)`: the
candidate points of the bounding box kept by the distance filter and the
bounds filter. -/
def neighborhood (center : List Int) (radius : Nat) (bounds : List (Int × Int)) :
    List (List Int) :=
  (gridPoints (boundingBox center radius)).filter fun p =>
    chebyshevLe p center radius && inBounds p bounds

/-! ## `utils.parse_kwargs` and `utils.duplicates`

Python dicts are embedded as association lists in insertion order; keys of
an actual dict are pairwise distinct, which claims assume where needed. -/

/-- `d[k] = v` on a dict: overwrite the value of an existing key in place,
or append a new binding at the end. -/
def dictSet {K V : Type} [DecidableEq K] (d : List (K × V)) (k : K) (v : V) :
    List (K × V) :=
  if k ∈ d.map Prod.fst then d.map fun p => if p.1 = k then (k, v) else p
  else d ++ [(k, v)]

/-- Python `d[k]` / `k in d`: first value bound to `k`, if any. -/
def dlookup {K V : Type} [DecidableEq K] (k : K) : List (K × V) → Option V
  | [] => none
  | p :: ps => if p.1 = k then some p.2 else dlookup k ps

/-- The body of the `for param, value in kwargs.items()` loop of
`parse_kwargs`, acting on the accumulator `(parsed, unknown)`: overwrite
the default of a known key, or record an unknown key in `unknown`. -/
def parseStep {K V : Type} [DecidableEq K] (defaults : List (K × V))
    (acc : List (K × V) × List (K × V)) (p : K × V) :
    List (K × V) × List (K × V) :=
  if p.1 ∈ defaults.map Prod.fst then (dictSet acc.1 p.1 p.2, acc.2)
  else (acc.1, dictSet acc.2 p.1 p.2)

/-- `utils.parse_kwargs(kwargs, defaults)`: start from a copy of
`defaults` (and an empty `unknown`), then run the loop over the items of
`kwargs`. -/
def parse_kwargs {K V : Type} [DecidableEq K] (kwargs defaults : List (K × V)) :
    List (K × V) × List (K × V) :=
  kwargs.foldl (parseStep defaults) (defaults, [])

/-- The generator loop of `utils.duplicates`: walk the sequence keeping the
set `seen` of elements met so far; an element already in `seen` goes into
`seen_twice`. -/
def duplicatesAux {α : Type} [DecidableEq α] :
    List α → Finset α → Finset α → Finset α
  | [], _, seen_twice => seen_twice
  | x :: xs, seen, seen_twice =>
    if x ∈ seen then duplicatesAux xs seen (insert x seen_twice)
    else duplicatesAux xs (insert x seen) seen_twice

/-- `utils.duplicates(sequence)`: the set of elements of the sequence seen
at least twice. -/
def duplicates {α : Type} [DecidableEq α] (sequence : List α) : Finset α :=
  duplicatesAux sequence ∅ ∅

/-! ## The polygonize orchestrator (spec §4.4) -/

/-- The sentinel id of the artificial outer region (spec §3: "a reserved
sentinel id (e.g. -1)"). -/
def outerLabel : Int := -1

/-- Modelled from the spec: the polygonize orchestrator of §4.4 is not among
the source files under `src/` (only `geometry.py` and `utils.py` are), so
its structure is taken from the spec's words: it "runs 4.1 → 4.2 once; then
for every region id except the sentinel outer region, gathers its bounding
branch coordinate lists … and calls 4.3", returning a region-id → polygon
mapping.  The label image is a 2D grid of signed integers; the per-region
work (skeletonization and stitching, §§4.1–4.3) is abstracted as the
parameter `stitch`, since claim C2 concerns only the key structure of the
returned mapping. -/
def polygonize (stitch : Int → List (ℚ × ℚ)) (image : List (List Int)) :
    List (Int × List (ℚ × ℚ)) :=
  ((image.flatten.filter fun v => decide (v ≠ outerLabel)).dedup).map
    fun r => (r, stitch r)

/-- The sign demanded by an orientation: positive signed area for `'ccw'`,
negative for `'cw'`. -/
def signMatches (a : ℚ) : Orientation → Prop
  | Orientation.ccw => 0 < a
  | Orientation.cw => a < 0

/-! ## Helper lemmas on the shoelace sums -/

theorem dotSum_nil_left (y : List ℚ) : dotSum [] y = 0 := by
  simp [dotSum]

theorem dotSum_cons (a b : ℚ) (x y : List ℚ) :
    dotSum (a :: x) (b :: y) = a * b + dotSum x y := by
  simp [dotSum]

theorem dotSum_comm (x y : List ℚ) : dotSum x y = dotSum y x := by
  unfold dotSum
  rw [List.zipWith_comm_of_comm _ mul_comm]

theorem dotSum_append (x₁ y₁ x₂ y₂ : List ℚ) (h : x₁.length = y₁.length) :
    dotSum (x₁ ++ x₂) (y₁ ++ y₂) = dotSum x₁ y₁ + dotSum x₂ y₂ := by
  unfold dotSum
  rw [List.zipWith_append _ _ _ _ _ h, List.sum_append]

theorem dotSum_reverse (x y : List ℚ) (h : x.length = y.length) :
    dotSum x.reverse y.reverse = dotSum x y := by
  induction x generalizing y with
  | nil =>
    obtain rfl : y = [] := by simpa using h.symm
    rfl
  | cons a xs ih =>
    obtain ⟨b, ys, rfl⟩ : ∃ b ys, y = b :: ys := by
      cases y with
      | nil => simp at h
      | cons b ys => exact ⟨b, ys, rfl⟩
    have hlen : xs.length = ys.length := by simpa using h
    rw [List.reverse_cons, List.reverse_cons,
      dotSum_append _ _ _ _ (by simpa using hlen), ih ys hlen, dotSum_cons]
    simp [dotSum]
    ring

theorem rotLeft_cons (a : ℚ) (x : List ℚ) : rotLeft (a :: x) = x ++ [a] := by
  simp [rotLeft]

theorem dotSum_rotLeft (x y : List ℚ) (h : x.length = y.length) :
    dotSum (rotLeft x) (rotLeft y) = dotSum x y := by
  cases x with
  | nil =>
    obtain rfl : y = [] := by simpa using h.symm
    rfl
  | cons a xs =>
    obtain ⟨b, ys, rfl⟩ : ∃ b ys, y = b :: ys := by
      cases y with
      | nil => simp at h
      | cons b ys => exact ⟨b, ys, rfl⟩
    have hlen : xs.length = ys.length := by simpa using h
    rw [rotLeft_cons, rotLeft_cons, dotSum_append _ _ _ _ hlen, dotSum_cons]
    simp [dotSum]
    ring

theorem dotSum_reverse_rotLeft (x y : List ℚ) (h : x.length = y.length) :
    dotSum x.reverse (rotLeft y.reverse) = dotSum (rotLeft x) y := by
  rcases List.eq_nil_or_concat y with rfl | ⟨ys, c, rfl⟩
  · obtain rfl : x = [] := by simpa using h
    rfl
  · rw [List.concat_eq_append] at h ⊢
    have hx : x.length = (c :: ys).length := by simpa using h
    rw [List.reverse_concat, show rotLeft (c :: ys.reverse) = (c :: ys).reverse by
      simp [rotLeft_cons], dotSum_reverse _ _ hx,
      show ys ++ [c] = rotLeft (c :: ys) from (rotLeft_cons c ys).symm,
      dotSum_rotLeft _ _ hx]

theorem polygon_area_reverse (x y : List ℚ) (h : x.length = y.length) :
    _polygon_area x.reverse y.reverse = - _polygon_area x y := by
  unfold _polygon_area
  rw [dotSum_reverse_rotLeft _ _ h,
    dotSum_comm (rotLeft x.reverse) y.reverse,
    dotSum_reverse_rotLeft _ _ h.symm,
    dotSum_comm (rotLeft y) x]
  ring

theorem cellSignedArea_reverse (v : List (ℚ × ℚ)) (cell : List Nat) :
    cellSignedArea v cell.reverse = - cellSignedArea v cell := by
  simp only [cellSignedArea, List.map_reverse]
  exact polygon_area_reverse _ _ (by simp)

/-- A reordered cell's signed area has the sign its orientation demands,
provided the cell is not degenerate (nonzero signed area). -/
theorem reorderCell_signMatches (v : List (ℚ × ℚ)) (o : Orientation)
    (cell : List Nat) (h : cellSignedArea v cell ≠ 0) :
    signMatches (cellSignedArea v (reorderCell v o cell)) o := by
  rcases lt_trichotomy (cellSignedArea v cell) 0 with hneg | hzero | hpos
  · cases o with
    | ccw =>
      have : needsReversal (cellSignedArea v cell) Orientation.ccw = true := by
        simp [needsReversal, hneg]
      simp only [reorderCell, if_pos this, cellSignedArea_reverse]
      simpa [signMatches] using hneg
    | cw =>
      have : ¬ needsReversal (cellSignedArea v cell) Orientation.cw = true := by
        simp [needsReversal, not_lt.mpr hneg.le]
      simp only [reorderCell, if_neg this]
      simpa [signMatches] using hneg
  · exact absurd hzero h
  · cases o with
    | ccw =>
      have : ¬ needsReversal (cellSignedArea v cell) Orientation.ccw = true := by
        simp [needsReversal, not_lt.mpr hpos.le]
      simp only [reorderCell, if_neg this]
      simpa [signMatches] using hpos
    | cw =>
      have : needsReversal (cellSignedArea v cell) Orientation.cw = true := by
        simp [needsReversal, hpos]
      simp only [reorderCell, if_pos this, cellSignedArea_reverse]
      simpa [signMatches] using hpos

/-! ## Claim C1 -/

/-- Claim C1, counterexample: the mesh with the collinear vertices
(1,2), (2,3), (3,4) and the single cell [0,1,2] has a 2D cells array with 3
vertices per cell, yet `change_vertex_numbering('ccw')` returns a cell whose
shoelace signed area is 0 — not positive, so the sign does not match the
requested `'ccw'` orientation. -/
theorem C1_counterexample :
    (change_vertex_numbering ⟨[(1, 2), (2, 3), (3, 4)], NDCells.mat [[0, 1, 2]]⟩
        Orientation.ccw false).2 = Except.ok [[0, 1, 2]] ∧
    cellSignedArea [(1, 2), (2, 3), (3, 4)] [0, 1, 2] = 0 ∧
    ¬ signMatches (cellSignedArea [(1, 2), (2, 3), (3, 4)] [0, 1, 2])
        Orientation.ccw := by
  have harea : cellSignedArea [(1, 2), (2, 3), (3, 4)] [0, 1, 2] = 0 := by
    norm_num [cellSignedArea, _polygon_area, dotSum, rotLeft]
  refine ⟨?_, harea, ?_⟩
  · have hrev : needsReversal (cellSignedArea [(1, 2), (2, 3), (3, 4)] [0, 1, 2])
        Orientation.ccw = false := by
      rw [harea]; simp [needsReversal]
    simp [change_vertex_numbering, colCount, reorderCell, hrev]
  · rw [harea]; simp [signMatches]

/-- Claim C1 (amended: the cells must in addition be non-degenerate, i.e.
have nonzero shoelace signed area — a degenerate cell keeps signed area 0,
which matches neither orientation): for every TriMesh whose cells array is
2D (nonempty) with at least 3 vertices per cell and nonzero signed area per
cell, every cell of the array returned by `change_vertex_numbering` has a
shoelace signed area whose sign matches the requested orientation —
positive for `'ccw'` and negative for `'cw'`. -/
theorem C1_change_vertex_numbering_orientation
    (v : List (ℚ × ℚ)) (m : List (List Nat)) (o : Orientation) (ip : Bool)
    (hne : m ≠ []) (h3 : ∀ row ∈ m, 3 ≤ row.length)
    (hnz : ∀ row ∈ m, cellSignedArea v row ≠ 0) :
    ∃ res, (change_vertex_numbering ⟨v, NDCells.mat m⟩ o ip).2 = Except.ok res ∧
      ∀ cell ∈ res, signMatches (cellSignedArea v cell) o := by
  obtain ⟨r0, rest, rfl⟩ := List.exists_cons_of_ne_nil hne
  refine ⟨(r0 :: rest).map (reorderCell v o), ?_, ?_⟩
  · have hcol : ¬ colCount (r0 :: rest) < 3 := by
      have := h3 r0 (List.mem_cons_self r0 rest)
      simp [colCount]
      omega
    cases ip <;> simp [change_vertex_numbering, hcol]
  · intro cell hcell
    rw [List.mem_map] at hcell
    obtain ⟨row, hrow, rfl⟩ := hcell
    exact reorderCell_signMatches v o row (hnz row hrow)

/-- Claim C1 witness: the amended theorem applied to the unit right
triangle, clockwise orientation. -/
theorem C1_witness :
    ([[0, 1, 2]] : List (List Nat)) ≠ [] ∧
    (∀ row ∈ [[0, 1, 2]], 3 ≤ List.length row) ∧
    (∀ row ∈ [[0, 1, 2]],
      cellSignedArea [((0 : ℚ), (0 : ℚ)), (1, 0), (0, 1)] row ≠ 0) ∧
    ∃ res, (change_vertex_numbering
        ⟨[((0 : ℚ), (0 : ℚ)), (1, 0), (0, 1)], NDCells.mat [[0, 1, 2]]⟩
        Orientation.cw false).2 = Except.ok res ∧
      ∀ cell ∈ res,
        signMatches (cellSignedArea [((0 : ℚ), (0 : ℚ)), (1, 0), (0, 1)] cell)
          Orientation.cw := by
  have hnz : ∀ row ∈ [[0, 1, 2]],
      cellSignedArea [((0 : ℚ), (0 : ℚ)), (1, 0), (0, 1)] row ≠ 0 := by
    intro row hrow
    rw [List.mem_singleton] at hrow
    subst hrow
    norm_num [cellSignedArea, _polygon_area, dotSum, rotLeft]
  exact ⟨by simp, by simp, hnz,
    C1_change_vertex_numbering_orientation _ _ Orientation.cw false (by simp)
      (by simp) hnz⟩

/-! ## Claim C4 -/

/-- Claim C4: the polygon with vertices (5,0), (6,4), (4,5), (1,5), (1,0)
has strictly positive shoelace signed area (namely 22), and a positive
signed area is exactly the case in which the `'ccw'` branch of the
orientation test of `change_vertex_numbering` keeps the cell (the reversal
test is false). -/
theorem C4_concrete_orientation :
    (0 : ℚ) < _polygon_area [5, 6, 4, 1, 1] [0, 4, 5, 5, 0] ∧
    _polygon_area [5, 6, 4, 1, 1] [0, 4, 5, 5, 0] = 22 ∧
    needsReversal (_polygon_area [5, 6, 4, 1, 1] [0, 4, 5, 5, 0])
      Orientation.ccw = false := by
  have h : _polygon_area [5, 6, 4, 1, 1] [0, 4, 5, 5, 0] = 22 := by
    norm_num [_polygon_area, dotSum, rotLeft]
  refine ⟨by rw [h]; norm_num, h, ?_⟩
  rw [h]
  simp [needsReversal]

/-! ## Claim C5 -/

/-- Claim C5: for every pair of equal-length coordinate lists, reversing
the vertex order negates the shoelace signed area. -/
theorem C5_polygon_area_reverse (x y : List ℚ) (h : x.length = y.length) :
    _polygon_area x.reverse y.reverse = - _polygon_area x y :=
  polygon_area_reverse x y h

/-- Claim C5 witness: the reversal identity at the triangle (0,0), (1,0),
(1,1). -/
theorem C5_witness :
    ([0, 1, 1] : List ℚ).length = ([0, 0, 1] : List ℚ).length ∧
    _polygon_area ([0, 1, 1] : List ℚ).reverse ([0, 0, 1] : List ℚ).reverse
      = - _polygon_area [0, 1, 1] [0, 0, 1] :=
  ⟨rfl, C5_polygon_area_reverse [0, 1, 1] [0, 0, 1] rfl⟩

/-! ## Claim C6 -/

/-- Claim C6, counterexample: for a mesh whose cells field is the 1D array
[0, 1] (fewer than 3 vertices), the call raises the exception, but it does
not leave the cells field unchanged — lines 201–202 have already reshaped
it to the 2D array [[0, 1]] before the guard fires. -/
theorem C6_counterexample :
    (change_vertex_numbering ⟨[], NDCells.vec [0, 1]⟩ Orientation.ccw false).2
      = Except.error "Cells must have at least 3 vertices." ∧
    (change_vertex_numbering ⟨[], NDCells.vec [0, 1]⟩ Orientation.ccw false).1.cells
      = NDCells.mat [[0, 1]] ∧
    NDCells.mat [[0, 1]] ≠ NDCells.vec [0, 1] := by
  refine ⟨?_, ?_, by simp⟩ <;> simp [change_vertex_numbering, colCount]

/-- Claim C6 (amended: restricted to a 2D cells array; for a 1D cells array
the call still raises immediately, but the cells field has by then been
reshaped to a 1×n 2D array): if a TriMesh's cells array is 2D with fewer
than 3 vertices per cell, `change_vertex_numbering` raises the exception
immediately, producing no result, and leaves the vertices and cells fields
unchanged. -/
theorem C6_invalid_cells_error
    (v : List (ℚ × ℚ)) (m : List (List Nat)) (o : Orientation) (ip : Bool)
    (h : colCount m < 3) :
    change_vertex_numbering ⟨v, NDCells.mat m⟩ o ip
      = (⟨v, NDCells.mat m⟩, Except.error "Cells must have at least 3 vertices.") := by
  simp [change_vertex_numbering, h]

/-- Claim C6 witness: the amended theorem at the two-vertex cell [[0, 1]]. -/
theorem C6_witness :
    colCount [[0, 1]] < 3 ∧
    change_vertex_numbering ⟨[], NDCells.mat [[0, 1]]⟩ Orientation.ccw false
      = (⟨[], NDCells.mat [[0, 1]]⟩,
         Except.error "Cells must have at least 3 vertices.") :=
  ⟨by decide, C6_invalid_cells_error [] [[0, 1]] Orientation.ccw false (by decide)⟩

/-! ## Claim C7 -/

/-- Claim C7: `_polygon_area` and `neighborhood` are deterministic — two
calls with equal arguments return equal results.  In this embedding the two
functions are pure (they read no state other than their arguments and
mutate nothing), so determinism is equality of the applications. -/
theorem C7_determinism (x₁ y₁ x₂ y₂ : List ℚ) (c₁ c₂ : List Int)
    (r₁ r₂ : Nat) (b₁ b₂ : List (Int × Int))
    (hx : x₁ = x₂) (hy : y₁ = y₂) (hc : c₁ = c₂) (hr : r₁ = r₂) (hb : b₁ = b₂) :
    _polygon_area x₁ y₁ = _polygon_area x₂ y₂ ∧
    neighborhood c₁ r₁ b₁ = neighborhood c₂ r₂ b₂ := by
  subst hx hy hc hr hb
  exact ⟨rfl, rfl⟩

/-- Claim C7 witness: two repeated calls at concrete arguments. -/
theorem C7_witness :
    ([0, 1, 1] : List ℚ) = [0, 1, 1] ∧ ([0, 0, 1] : List ℚ) = [0, 0, 1] ∧
    ([2, 2] : List Int) = [2, 2] ∧ (2 : Nat) = 2 ∧
    ([((0 : Int), (4 : Int)), (0, 3)] : List (Int × Int)) = [(0, 4), (0, 3)] ∧
    (_polygon_area [0, 1, 1] [0, 0, 1] = _polygon_area [0, 1, 1] [0, 0, 1] ∧
     neighborhood [2, 2] 2 [(0, 4), (0, 3)] = neighborhood [2, 2] 2 [(0, 4), (0, 3)]) :=
  ⟨rfl, rfl, rfl, rfl, rfl,
   C7_determinism [0, 1, 1] [0, 0, 1] [0, 1, 1] [0, 0, 1] [2, 2] [2, 2] 2 2
     [(0, 4), (0, 3)] [(0, 4), (0, 3)] rfl rfl rfl rfl rfl⟩

/-! ## Claim C8 -/

/-- Claim C8, counterexample: the mesh with the 2D cells array [[0, 1]]
(two vertices per cell) shows that `change_vertex_numbering` on a 2D cells
array need not return a computed array at all — it raises the
vertex-count exception instead. -/
theorem C8_counterexample :
    (change_vertex_numbering ⟨[(1, 2), (3, 4)], NDCells.mat [[0, 1]]⟩
        Orientation.ccw false).2
      = Except.error "Cells must have at least 3 vertices." := by
  simp [change_vertex_numbering, colCount]

/-- Claim C8 (amended: for `change_vertex_numbering` the 2D cells array
must in addition be nonempty with at least 3 vertices per cell, otherwise
the call raises instead of returning an array): with `inplace=False` each
of `change_vertex_numbering`, `scale`, `rotate` returns the computed array
and leaves the vertices and cells fields unchanged; with `inplace=True`
only the corresponding field (cells, vertices, vertices respectively) is
replaced by the computed array, the other field staying unchanged. -/
theorem C8_frame_effects (v : List (ℚ × ℚ)) (m : List (List Nat))
    (o : Orientation) (factor c s : ℚ) (pt : ℚ × ℚ)
    (hne : m ≠ []) (h3 : ∀ row ∈ m, 3 ≤ row.length) :
    ((change_vertex_numbering ⟨v, NDCells.mat m⟩ o false).1 = ⟨v, NDCells.mat m⟩ ∧
     (change_vertex_numbering ⟨v, NDCells.mat m⟩ o false).2
       = Except.ok (m.map (reorderCell v o)) ∧
     (change_vertex_numbering ⟨v, NDCells.mat m⟩ o true).1
       = ⟨v, NDCells.mat (m.map (reorderCell v o))⟩ ∧
     (change_vertex_numbering ⟨v, NDCells.mat m⟩ o true).2
       = Except.ok (m.map (reorderCell v o))) ∧
    ((scale ⟨v, NDCells.mat m⟩ factor false).1 = ⟨v, NDCells.mat m⟩ ∧
     (scale ⟨v, NDCells.mat m⟩ factor false).2
       = v.map (fun p => (factor * p.1, factor * p.2)) ∧
     (scale ⟨v, NDCells.mat m⟩ factor true).1
       = ⟨v.map (fun p => (factor * p.1, factor * p.2)), NDCells.mat m⟩) ∧
    ((rotate ⟨v, NDCells.mat m⟩ c s pt false).1 = ⟨v, NDCells.mat m⟩ ∧
     (rotate ⟨v, NDCells.mat m⟩ c s pt true).1
       = ⟨(rotate ⟨v, NDCells.mat m⟩ c s pt false).2, NDCells.mat m⟩) := by
  obtain ⟨r0, rest, rfl⟩ := List.exists_cons_of_ne_nil hne
  have hcol : ¬ colCount (r0 :: rest) < 3 := by
    have := h3 r0 (List.mem_cons_self r0 rest)
    simp [colCount]
    omega
  refine ⟨⟨?_, ?_, ?_, ?_⟩, ⟨rfl, rfl, rfl⟩, rfl, rfl⟩ <;>
    simp [change_vertex_numbering, hcol]

/-- Claim C8 witness: the amended frame theorem at a concrete
one-triangle mesh, scale factor 2 and a quarter-turn rotation about the
origin. -/
theorem C8_witness :
    ([[0, 1, 2]] : List (List Nat)) ≠ [] ∧
    (∀ row ∈ [[0, 1, 2]], 3 ≤ List.length row) ∧
    (((change_vertex_numbering ⟨[((0 : ℚ), (0 : ℚ)), (1, 0), (0, 1)],
          NDCells.mat [[0, 1, 2]]⟩ Orientation.ccw false).1
       = ⟨[((0 : ℚ), (0 : ℚ)), (1, 0), (0, 1)], NDCells.mat [[0, 1, 2]]⟩ ∧
      (change_vertex_numbering ⟨[((0 : ℚ), (0 : ℚ)), (1, 0), (0, 1)],
          NDCells.mat [[0, 1, 2]]⟩ Orientation.ccw false).2
       = Except.ok ([[0, 1, 2]].map
           (reorderCell [((0 : ℚ), (0 : ℚ)), (1, 0), (0, 1)] Orientation.ccw)) ∧
      (change_vertex_numbering ⟨[((0 : ℚ), (0 : ℚ)), (1, 0), (0, 1)],
          NDCells.mat [[0, 1, 2]]⟩ Orientation.ccw true).1
       = ⟨[((0 : ℚ), (0 : ℚ)), (1, 0), (0, 1)],
          NDCells.mat ([[0, 1, 2]].map
            (reorderCell [((0 : ℚ), (0 : ℚ)), (1, 0), (0, 1)] Orientation.ccw))⟩ ∧
      (change_vertex_numbering ⟨[((0 : ℚ), (0 : ℚ)), (1, 0), (0, 1)],
          NDCells.mat [[0, 1, 2]]⟩ Orientation.ccw true).2
       = Except.ok ([[0, 1, 2]].map
           (reorderCell [((0 : ℚ), (0 : ℚ)), (1, 0), (0, 1)] Orientation.ccw))) ∧
     ((scale ⟨[((0 : ℚ), (0 : ℚ)), (1, 0), (0, 1)], NDCells.mat [[0, 1, 2]]⟩
          2 false).1
       = ⟨[((0 : ℚ), (0 : ℚ)), (1, 0), (0, 1)], NDCells.mat [[0, 1, 2]]⟩ ∧
      (scale ⟨[((0 : ℚ), (0 : ℚ)), (1, 0), (0, 1)], NDCells.mat [[0, 1, 2]]⟩
          2 false).2
       = [((0 : ℚ), (0 : ℚ)), (1, 0), (0, 1)].map (fun p => (2 * p.1, 2 * p.2)) ∧
      (scale ⟨[((0 : ℚ), (0 : ℚ)), (1, 0), (0, 1)], NDCells.mat [[0, 1, 2]]⟩
          2 true).1
       = ⟨[((0 : ℚ), (0 : ℚ)), (1, 0), (0, 1)].map (fun p => (2 * p.1, 2 * p.2)),
          NDCells.mat [[0, 1, 2]]⟩) ∧
     ((rotate ⟨[((0 : ℚ), (0 : ℚ)), (1, 0), (0, 1)], NDCells.mat [[0, 1, 2]]⟩
          0 1 (0, 0) false).1
       = ⟨[((0 : ℚ), (0 : ℚ)), (1, 0), (0, 1)], NDCells.mat [[0, 1, 2]]⟩ ∧
      (rotate ⟨[((0 : ℚ), (0 : ℚ)), (1, 0), (0, 1)], NDCells.mat [[0, 1, 2]]⟩
          0 1 (0, 0) true).1
       = ⟨(rotate ⟨[((0 : ℚ), (0 : ℚ)), (1, 0), (0, 1)], NDCells.mat [[0, 1, 2]]⟩
            0 1 (0, 0) false).2, NDCells.mat [[0, 1, 2]]⟩)) :=
  ⟨by simp, by simp,
   C8_frame_effects [((0 : ℚ), (0 : ℚ)), (1, 0), (0, 1)] [[0, 1, 2]]
     Orientation.ccw 2 0 1 (0, 0) (by simp) (by simp)⟩

/-! ## Helper lemmas for `neighborhood` -/

theorem mem_gridPoints (rows : List (List Int)) (p : List Int) :
    p ∈ gridPoints rows ↔ List.Forall₂ (fun v r => v ∈ r) p rows := by
  induction rows generalizing p with
  | nil =>
    simp [gridPoints, List.forall₂_nil_right_iff]
  | cons r rest ih =>
    simp only [gridPoints, List.mem_flatMap, List.mem_map]
    constructor
    · rintro ⟨v, hv, q, hq, rfl⟩
      exact List.Forall₂.cons hv ((ih q).mp hq)
    · intro h
      cases p with
      | nil => cases h
      | cons v q =>
        rw [List.forall₂_cons] at h
        exact ⟨v, h.1, q, (ih q).mpr h.2, rfl⟩

theorem mem_boundingRow (c v : Int) (radius : Nat) :
    v ∈ boundingRow c radius ↔ (v - c).natAbs ≤ radius := by
  unfold boundingRow
  simp only [List.mem_map, List.mem_range]
  constructor
  · rintro ⟨k, hk, hkv⟩
    omega
  · intro h
    exact ⟨(v - c + radius).toNat, by omega, by omega⟩

theorem zip_all_iff_forall₂ {α β : Type} (f : α × β → Bool) (p : List α)
    (b : List β) (h : p.length = b.length) :
    (List.zip p b).all f = true ↔ List.Forall₂ (fun x y => f (x, y) = true) p b := by
  induction p generalizing b with
  | nil =>
    obtain rfl : b = [] := by simpa using h.symm
    simp
  | cons x xs ih =>
    cases b with
    | nil => simp at h
    | cons y ys =>
      have hlen : xs.length = ys.length := by simpa using h
      simp [List.forall₂_cons, ih ys hlen]

theorem forall₂_zip_iff {α β γ : Type} (P : α → β → Prop) (Q : α → γ → Prop)
    (p : List α) (c : List β) (b : List γ) (h : c.length = b.length) :
    List.Forall₂ (fun x cb => P x cb.1 ∧ Q x cb.2) p (c.zip b) ↔
      List.Forall₂ P p c ∧ List.Forall₂ Q p b := by
  induction p generalizing c b with
  | nil =>
    cases c with
    | nil =>
      obtain rfl : b = [] := by simpa using h.symm
      simp
    | cons u cs =>
      cases b with
      | nil => simp at h
      | cons w bs => simp
  | cons x xs ih =>
    cases c with
    | nil =>
      obtain rfl : b = [] := by simpa using h.symm
      simp
    | cons u cs =>
      cases b with
      | nil => simp at h
      | cons w bs =>
        have hlen : cs.length = bs.length := by simpa using h
        simp [List.forall₂_cons, ih cs bs hlen]
        tauto

/-! ## Claim C3 -/

/-- Claim C3: for every integer center, positive radius and per-dimension
bounds list, `neighborhood(center, radius, norm=inf, method='ball',
bounds)` contains an integer point `p` exactly when, in every dimension
`i`, `|p_i - center_i| ≤ radius` (the maximum norm ball) and
`bounds[i][0] ≤ p_i ≤ bounds[i][1]`; in particular no returned point lies
outside the given bounds. -/
theorem C3_neighborhood_members (center : List Int) (radius : Nat)
    (bounds : List (Int × Int)) (p : List Int)
    (hlen : bounds.length = center.length) (_hr : 0 < radius) :
    p ∈ neighborhood center radius bounds ↔
      List.Forall₂
        (fun pi cb => (pi - cb.1).natAbs ≤ radius ∧ cb.2.1 ≤ pi ∧ pi ≤ cb.2.2)
        p (center.zip bounds) := by
  rw [neighborhood, List.mem_filter, Bool.and_eq_true, mem_gridPoints,
    boundingBox, List.forall₂_map_right_iff]
  refine Iff.trans ?_
    (forall₂_zip_iff (fun pi c => (pi - c).natAbs ≤ radius)
      (fun pi b => b.1 ≤ pi ∧ pi ≤ b.2) p center bounds hlen.symm).symm
  constructor
  · rintro ⟨hbox, -, hin⟩
    have hplen : p.length = center.length := hbox.length_eq
    refine ⟨hbox.imp fun a b h => (mem_boundingRow b a radius).mp h, ?_⟩
    have := (zip_all_iff_forall₂ _ p bounds (hplen.trans hlen.symm)).mp hin
    exact this.imp fun a b h => by simpa using h
  · rintro ⟨hdist, hbnd⟩
    have hplen : p.length = center.length := hdist.length_eq
    refine ⟨hdist.imp fun a b h => (mem_boundingRow b a radius).mpr h, ?_, ?_⟩
    · exact (zip_all_iff_forall₂ _ p center hplen).mpr
        (hdist.imp fun a b h => by simpa using h)
    · exact (zip_all_iff_forall₂ _ p bounds (hplen.trans hlen.symm)).mpr
        (hbnd.imp fun a b h => by simpa using h)

/-- Claim C3 witness: the Moore neighborhood of range 1 around (0, -4)
clipped to the box [0, 2] × [-6, -4], tested at the point (1, -5). -/
theorem C3_witness :
    ([((0 : Int), (2 : Int)), (-6, -4)] : List (Int × Int)).length
      = ([0, -4] : List Int).length ∧
    (0 : Nat) < 1 ∧
    (([1, -5] : List Int) ∈ neighborhood [0, -4] 1 [(0, 2), (-6, -4)] ↔
      List.Forall₂
        (fun pi cb => (pi - cb.1).natAbs ≤ 1 ∧ cb.2.1 ≤ pi ∧ pi ≤ cb.2.2)
        [1, -5] (([0, -4] : List Int).zip [(0, 2), (-6, -4)])) :=
  ⟨rfl, by decide,
   C3_neighborhood_members [0, -4] 1 [(0, 2), (-6, -4)] [1, -5] rfl (by decide)⟩

/-! ## Helper lemmas for `parse_kwargs` -/

section ParseKwargs

variable {K V : Type} [DecidableEq K]

theorem keys_dictSet_mem (d : List (K × V)) (k : K) (v : V)
    (h : k ∈ d.map Prod.fst) :
    (dictSet d k v).map Prod.fst = d.map Prod.fst := by
  rw [dictSet, if_pos h, List.map_map]
  refine List.map_congr_left fun p _ => ?_
  by_cases hp : p.1 = k
  · simp [hp]
  · simp [hp]

theorem dlookup_map_update (d : List (K × V)) (k : K) (v : V)
    (h : k ∈ d.map Prod.fst) :
    dlookup k (d.map fun p => if p.1 = k then (k, v) else p) = some v := by
  induction d with
  | nil => simp at h
  | cons p ps ih =>
    by_cases hp : p.1 = k
    · simp [dlookup, hp]
    · rw [List.map_cons, if_neg hp]
      rw [List.map_cons, List.mem_cons] at h
      rcases h with h | h
      · exact absurd h.symm hp
      · rw [dlookup, if_neg hp]
        exact ih h

theorem dlookup_map_update_ne (d : List (K × V)) (k k' : K) (v : V)
    (hne : k' ≠ k) :
    dlookup k' (d.map fun p => if p.1 = k then (k, v) else p) = dlookup k' d := by
  induction d with
  | nil => rfl
  | cons p ps ih =>
    by_cases hp : p.1 = k
    · rw [List.map_cons, if_pos hp, dlookup, if_neg (fun h => hne h.symm),
        dlookup, if_neg (fun h => hne (hp ▸ h).symm)]
      exact ih
    · rw [List.map_cons, if_neg hp]
      by_cases hp' : p.1 = k'
      · rw [dlookup, if_pos hp', dlookup, if_pos hp']
      · rw [dlookup, if_neg hp', dlookup, if_neg hp']
        exact ih

theorem dlookup_append_singleton_ne (d : List (K × V)) (k k' : K) (v : V)
    (hne : k' ≠ k) :
    dlookup k' (d ++ [(k, v)]) = dlookup k' d := by
  induction d with
  | nil =>
    rw [List.nil_append]
    simp [dlookup, Ne.symm hne]
  | cons p ps ih =>
    by_cases hp : p.1 = k'
    · rw [List.cons_append, dlookup, if_pos hp, dlookup, if_pos hp]
    · rw [List.cons_append, dlookup, if_neg hp, dlookup, if_neg hp]
      exact ih

theorem dlookup_dictSet_self (d : List (K × V)) (k : K) (v : V)
    (h : k ∈ d.map Prod.fst) : dlookup k (dictSet d k v) = some v := by
  rw [dictSet, if_pos h]
  exact dlookup_map_update d k v h

theorem dlookup_dictSet_ne (d : List (K × V)) (k k' : K) (v : V)
    (hne : k' ≠ k) : dlookup k' (dictSet d k v) = dlookup k' d := by
  rw [dictSet]
  by_cases h : k ∈ d.map Prod.fst
  · rw [if_pos h]
    exact dlookup_map_update_ne d k k' v hne
  · rw [if_neg h]
    exact dlookup_append_singleton_ne d k k' v hne

theorem parse_foldl_keys (defaults kwargs : List (K × V))
    (acc : List (K × V) × List (K × V))
    (h : acc.1.map Prod.fst = defaults.map Prod.fst) :
    ((kwargs.foldl (parseStep defaults) acc).1).map Prod.fst
      = defaults.map Prod.fst := by
  induction kwargs generalizing acc with
  | nil => exact h
  | cons p ps ih =>
    rw [List.foldl_cons]
    apply ih
    rw [parseStep]
    by_cases hp : p.1 ∈ defaults.map Prod.fst
    · rw [if_pos hp]
      exact (keys_dictSet_mem acc.1 p.1 p.2 (h ▸ hp)).trans h
    · rw [if_neg hp]
      exact h

theorem parse_foldl_lookup (defaults kwargs : List (K × V))
    (acc : List (K × V) × List (K × V)) (k : K)
    (hkeys : acc.1.map Prod.fst = defaults.map Prod.fst)
    (hnd : (kwargs.map Prod.fst).Nodup) :
    dlookup k (kwargs.foldl (parseStep defaults) acc).1
      = if k ∈ kwargs.map Prod.fst ∧ k ∈ defaults.map Prod.fst
        then dlookup k kwargs else dlookup k acc.1 := by
  induction kwargs generalizing acc with
  | nil => simp
  | cons p ps ih =>
    rw [List.map_cons, List.nodup_cons] at hnd
    rw [List.foldl_cons]
    by_cases hp : p.1 ∈ defaults.map Prod.fst
    · have hstep : parseStep defaults acc p = (dictSet acc.1 p.1 p.2, acc.2) := by
        rw [parseStep, if_pos hp]
      have hacc : (dictSet acc.1 p.1 p.2).map Prod.fst = defaults.map Prod.fst :=
        (keys_dictSet_mem acc.1 p.1 p.2 (by rw [hkeys]; exact hp)).trans hkeys
      rw [hstep, ih (dictSet acc.1 p.1 p.2, acc.2) hacc hnd.2]
      by_cases hk : k = p.1
      · have hnotps : k ∉ ps.map Prod.fst := by rw [hk]; exact hnd.1
        have hmemk : k ∈ (p :: ps).map Prod.fst := by
          rw [List.map_cons, hk]
          exact List.mem_cons_self _ _
        have hkd : k ∈ defaults.map Prod.fst := by rw [hk]; exact hp
        rw [if_neg (fun hc => hnotps hc.1), if_pos ⟨hmemk, hkd⟩, hk,
          dlookup_dictSet_self acc.1 p.1 p.2 (by rw [hkeys]; exact hp),
          dlookup, if_pos rfl]
      · rw [dlookup_dictSet_ne acc.1 p.1 k p.2 hk]
        have hmem : k ∈ (p :: ps).map Prod.fst ↔ k ∈ ps.map Prod.fst := by
          simp [hk]
        have hdl : dlookup k (p :: ps) = dlookup k ps := by
          rw [dlookup, if_neg (fun h : p.1 = k => hk h.symm)]
        rw [hdl]
        by_cases hks : k ∈ ps.map Prod.fst ∧ k ∈ defaults.map Prod.fst
        · rw [if_pos hks, if_pos ⟨hmem.mpr hks.1, hks.2⟩]
        · rw [if_neg hks, if_neg (fun hc => hks ⟨hmem.mp hc.1, hc.2⟩)]
    · have hstep : parseStep defaults acc p = (acc.1, dictSet acc.2 p.1 p.2) := by
        rw [parseStep, if_neg hp]
      rw [hstep, ih (acc.1, dictSet acc.2 p.1 p.2) hkeys hnd.2]
      by_cases hk : k = p.1
      · have hkd : k ∉ defaults.map Prod.fst := by rw [hk]; exact hp
        rw [if_neg (fun hc => hkd hc.2), if_neg (fun hc => hkd hc.2)]
      · have hmem : k ∈ (p :: ps).map Prod.fst ↔ k ∈ ps.map Prod.fst := by
          simp [hk]
        have hdl : dlookup k (p :: ps) = dlookup k ps := by
          rw [dlookup, if_neg (fun h : p.1 = k => hk h.symm)]
        rw [hdl]
        by_cases hks : k ∈ ps.map Prod.fst ∧ k ∈ defaults.map Prod.fst
        · rw [if_pos hks, if_pos ⟨hmem.mpr hks.1, hks.2⟩]
        · rw [if_neg hks, if_neg (fun hc => hks ⟨hmem.mp hc.1, hc.2⟩)]

theorem parse_foldl_unknown (defaults kwargs : List (K × V))
    (acc : List (K × V) × List (K × V))
    (hdisj : ∀ q ∈ kwargs, q.1 ∉ acc.2.map Prod.fst)
    (hnd : (kwargs.map Prod.fst).Nodup) :
    (kwargs.foldl (parseStep defaults) acc).2
      = acc.2 ++ kwargs.filter fun q => decide (q.1 ∉ defaults.map Prod.fst) := by
  induction kwargs generalizing acc with
  | nil => simp
  | cons p ps ih =>
    rw [List.map_cons, List.nodup_cons] at hnd
    rw [List.foldl_cons]
    by_cases hp : p.1 ∈ defaults.map Prod.fst
    · have hstep : parseStep defaults acc p = (dictSet acc.1 p.1 p.2, acc.2) := by
        rw [parseStep, if_pos hp]
      rw [hstep, ih (dictSet acc.1 p.1 p.2, acc.2)
        (fun q hq => hdisj q (List.mem_cons_of_mem p hq)) hnd.2,
        List.filter_cons_of_neg (by simpa using hp)]
    · have hstep : parseStep defaults acc p = (acc.1, dictSet acc.2 p.1 p.2) := by
        rw [parseStep, if_neg hp]
      have hpd : dictSet acc.2 p.1 p.2 = acc.2 ++ [p] := by
        rw [dictSet, if_neg (hdisj p (List.mem_cons_self p ps))]
      have hdisj2 : ∀ q ∈ ps, q.1 ∉ (acc.2 ++ [p]).map Prod.fst := by
        intro q hq
        rw [List.map_append, List.mem_append]
        rintro (hc | hc)
        · exact hdisj q (List.mem_cons_of_mem p hq) hc
        · have hc' : q.1 = p.1 := by simpa using hc
          exact hnd.1 (hc' ▸ List.mem_map_of_mem Prod.fst hq)
      rw [hstep, hpd, ih (acc.1, acc.2 ++ [p]) hdisj2 hnd.2,
        List.filter_cons_of_pos (by simpa using hp), List.append_assoc,
        List.singleton_append]

end ParseKwargs

/-! ## Claim C9 -/

/-- Claim C9: `parse_kwargs(kwargs, defaults)` returns `(parsed, unknown)`
where `parsed` has exactly the keys of `defaults` (in order), the value of
a default key `k` in `parsed` is `kwargs[k]` when `kwargs` binds `k` and
`defaults[k]` otherwise, and `unknown` is exactly the sublist of `kwargs`
whose keys are not in `defaults`.  The `defaults` argument is never
modified: the embedding is pure (`parsed` starts from a copy, mirroring
`defaults.copy()` in the source). -/
theorem C9_parse_kwargs {K V : Type} [DecidableEq K]
    (kwargs defaults : List (K × V)) (k : K)
    (hnd : (kwargs.map Prod.fst).Nodup) (hk : k ∈ defaults.map Prod.fst) :
    ((parse_kwargs kwargs defaults).1.map Prod.fst = defaults.map Prod.fst) ∧
    (dlookup k (parse_kwargs kwargs defaults).1
      = if k ∈ kwargs.map Prod.fst then dlookup k kwargs
        else dlookup k defaults) ∧
    ((parse_kwargs kwargs defaults).2
      = kwargs.filter fun q => decide (q.1 ∉ defaults.map Prod.fst)) := by
  refine ⟨parse_foldl_keys defaults kwargs (defaults, []) rfl, ?_, ?_⟩
  · rw [parse_kwargs, parse_foldl_lookup defaults kwargs (defaults, []) k rfl hnd]
    by_cases hkw : k ∈ kwargs.map Prod.fst
    · rw [if_pos ⟨hkw, hk⟩, if_pos hkw]
    · rw [if_neg (fun hc => hkw hc.1), if_neg hkw]
  · rw [parse_kwargs,
      parse_foldl_unknown defaults kwargs (defaults, []) (by simp) hnd,
      List.nil_append]

/-- Claim C9 witness: the theorem at the dictionaries
`kwargs = {opt3: 1, opt4: 2}`, `defaults = {opt1: 0, opt3: 5}`, key
`opt3`. -/
theorem C9_witness :
    ((([("opt3", 1), ("opt4", 2)] : List (String × Int)).map Prod.fst).Nodup) ∧
    ("opt3" ∈ ([("opt1", 0), ("opt3", 5)] : List (String × Int)).map Prod.fst) ∧
    (((parse_kwargs ([("opt3", 1), ("opt4", 2)] : List (String × Int))
        ([("opt1", 0), ("opt3", 5)] : List (String × Int))).1.map Prod.fst
      = ([("opt1", 0), ("opt3", 5)] : List (String × Int)).map Prod.fst) ∧
    (dlookup "opt3" (parse_kwargs ([("opt3", 1), ("opt4", 2)] : List (String × Int))
        ([("opt1", 0), ("opt3", 5)] : List (String × Int))).1
      = if "opt3" ∈ ([("opt3", 1), ("opt4", 2)] : List (String × Int)).map Prod.fst
        then dlookup "opt3" ([("opt3", 1), ("opt4", 2)] : List (String × Int))
        else dlookup "opt3" ([("opt1", 0), ("opt3", 5)] : List (String × Int))) ∧
    ((parse_kwargs ([("opt3", 1), ("opt4", 2)] : List (String × Int))
        ([("opt1", 0), ("opt3", 5)] : List (String × Int))).2
      = ([("opt3", 1), ("opt4", 2)] : List (String × Int)).filter fun q =>
          decide (q.1 ∉ ([("opt1", 0), ("opt3", 5)] : List (String × Int)).map
            Prod.fst))) :=
  ⟨by decide, by decide,
   C9_parse_kwargs ([("opt3", 1), ("opt4", 2)] : List (String × Int))
     ([("opt1", 0), ("opt3", 5)] : List (String × Int))
     "opt3" (by decide) (by decide)⟩

/-! ## Claim C10 -/

/-- Loop invariant of the `duplicates` generator: an element is in the
final set exactly when it is already in `seen_twice`, or it is in `seen`
and occurs in the remaining input, or it occurs at least twice in the
remaining input. -/
theorem mem_duplicatesAux {α : Type} [DecidableEq α] (l : List α)
    (seen seen_twice : Finset α) (x : α) :
    x ∈ duplicatesAux l seen seen_twice ↔
      x ∈ seen_twice ∨ (x ∈ seen ∧ x ∈ l) ∨ 2 ≤ List.count x l := by
  induction l generalizing seen seen_twice with
  | nil => simp [duplicatesAux]
  | cons a l ih =>
    by_cases ha : a ∈ seen
    · rw [duplicatesAux, if_pos ha, ih]
      by_cases hx : x = a
      · subst hx
        simp [ha]
      · have hx' : ¬ a = x := fun h => hx h.symm
        simp [Finset.mem_insert, hx, hx', List.count_cons, List.mem_cons]
    · rw [duplicatesAux, if_neg ha, ih]
      by_cases hx : x = a
      · subst hx
        constructor
        · rintro (h | ⟨-, h⟩ | h)
          · exact Or.inl h
          · right; right
            rw [List.count_cons_self]
            have := List.count_pos_iff.mpr h
            omega
          · right; right
            rw [List.count_cons_self]
            omega
        · rintro (h | ⟨hs, -⟩ | h)
          · exact Or.inl h
          · exact absurd hs ha
          · rw [List.count_cons_self] at h
            by_cases hl : x ∈ l
            · exact Or.inr (Or.inl ⟨Finset.mem_insert_self x seen, hl⟩)
            · have : List.count x l = 0 := List.count_eq_zero.mpr hl
              omega
      · have hx' : ¬ a = x := fun h => hx h.symm
        simp [Finset.mem_insert, hx, hx', List.count_cons, List.mem_cons]

/-- Claim C10: `duplicates(s)` is exactly the set of values occurring at
least twice in `s` — an element is a member of the result iff it appears
at two or more positions of the sequence. -/
theorem C10_duplicates {α : Type} [DecidableEq α] (s : List α) (x : α) :
    x ∈ duplicates s ↔ 2 ≤ List.count x s := by
  rw [duplicates, mem_duplicatesAux]
  simp

/-! ## Claim C2 -/

/-- Claim C2 (spec-modelled, the orchestrator is not among the source
files): the keys of the mapping returned by the polygonize orchestrator
are exactly the non-outer region ids present in the input label image,
each appearing exactly once. -/
theorem C2_polygonize_keys (stitch : Int → List (ℚ × ℚ))
    (image : List (List Int)) :
    ((polygonize stitch image).map Prod.fst).Nodup ∧
    (∀ r : Int, r ∈ (polygonize stitch image).map Prod.fst ↔
      (r ≠ outerLabel ∧ ∃ row ∈ image, r ∈ row)) := by
  have hkeys : (polygonize stitch image).map Prod.fst
      = (image.flatten.filter fun v => decide (v ≠ outerLabel)).dedup := by
    have hcomp : (Prod.fst ∘ fun r : Int => (r, stitch r)) = id := rfl
    rw [polygonize, List.map_map, hcomp, List.map_id]
  constructor
  · rw [hkeys]
    exact List.nodup_dedup _
  · intro r
    rw [hkeys, List.mem_dedup, List.mem_filter]
    simp only [List.mem_flatten, decide_eq_true_eq]
    tauto

end Grains
